import Mathlib

/-!
Verification of the xlsynth select-simplification / union-query-engine /
proc-and-block-simulation core against its natural-language specification.

The definitions below are shallow embeddings of the C++ sources:
  * `xls/passes/union_query_engine.cc` (which also carries
    `select_simplification_pass.cc` in this repository snapshot), and
  * the proc/block evaluation driver in `xls/codegen/name_legalization_pass.cc`
    (the `eval_proc_main`-style simulation core).
-/

set_option maxRecDepth 10000

/-! ## ReachedFixpoint lattice and `UnownedUnionQueryEngine::Populate`
    (union_query_engine.cc lines 39-57) -/

/-- The fixpoint status lattice returned by `QueryEngine::Populate`. -/
inductive ReachedFixpoint where
  | Unchanged
  | Changed
  | Unknown
deriving DecidableEq

/-- One iteration of the status-combining loop body in
`UnownedUnionQueryEngine::Populate`:

```
if (result == ReachedFixpoint::Unchanged) { result = rf; }
if ((result == ReachedFixpoint::Changed) && (rf == ReachedFixpoint::Unknown)) {
  result = ReachedFixpoint::Unknown;
}
```
-/
def populateStep (result rf : ReachedFixpoint) : ReachedFixpoint :=
  let r1 := if result = ReachedFixpoint.Unchanged then rf else result
  if r1 = ReachedFixpoint.Changed ∧ rf = ReachedFixpoint.Unknown then
    ReachedFixpoint.Unknown
  else r1

/-- The loop of `UnownedUnionQueryEngine::Populate`: each sub-engine's
`Populate` result is either an error (propagated immediately by
`XLS_ASSIGN_OR_RETURN`) or a `ReachedFixpoint` folded into the accumulator. -/
def populateLoop {ε : Type} :
    List (Except ε ReachedFixpoint) → ReachedFixpoint → Except ε ReachedFixpoint
  | [], result => Except.ok result
  | Except.error e :: _, _ => Except.error e
  | Except.ok rf :: rest, result => populateLoop rest (populateStep result rf)

/-- `UnownedUnionQueryEngine::Populate`, as a function of the list of
sub-engine `Populate` outcomes (in sub-engine order). The accumulator starts
at `Unchanged`. -/
def UnownedUnionQueryEngine.Populate {ε : Type}
    (results : List (Except ε ReachedFixpoint)) : Except ε ReachedFixpoint :=
  populateLoop results ReachedFixpoint.Unchanged

/-! ## Ternary vectors and `UnownedUnionQueryEngine::GetTernary`
    (union_query_engine.cc lines 59-89)

`ternary_ops::UpdateWithUnion` and the `LeafTypeTree` helpers live in
`xls/ir`, which is not part of the selected sources; they are modelled from
the spec (see the doc comments below). -/

/-- A single ternary bit: known-zero, known-one, or unknown. -/
inductive TernaryValue where
  | kKnownZero
  | kKnownOne
  | kUnknown
deriving DecidableEq

/-- A ternary value per bit of a (flattened) bits-typed leaf. -/
abbrev TernaryVector := List TernaryValue

/-- Modelled from the spec: the per-bit union used by
`ternary_ops::UpdateWithUnion` (declared in `xls/ir/ternary.h`, not under
the selected sources). "union for ternary-bit queries, since more known bits
can only be discovered by combining independent engines, never made less
precise": an unknown bit takes the other side's value, agreeing known bits
stay, and conflicting known bits are an error (`CHECK_OK` aborts). -/
def unionBit : TernaryValue → TernaryValue → Option TernaryValue
  | TernaryValue.kUnknown, r => some r
  | l, TernaryValue.kUnknown => some l
  | l, r => if l = r then some l else none

/-- Modelled from the spec: `ternary_ops::UpdateWithUnion` over whole
vectors (not under the selected sources). Vectors of different lengths are
an error; otherwise the bits are united pointwise, failing on any conflict. -/
def UpdateWithUnion : TernaryVector → TernaryVector → Option TernaryVector
  | [], [] => some []
  | l :: ls, r :: rs =>
      match unionBit l r, UpdateWithUnion ls rs with
      | some b, some rest => some (b :: rest)
      | _, _ => none
  | _, _ => none

/-- A node's type is modelled by the flat bit count of each of its leaf
types, in `LeafTypeTree` order. -/
abbrev LeafWidths := List Nat

/-- A `LeafTypeTree TernaryVector`: one ternary vector per leaf. -/
abbrev TernaryTree := List TernaryVector

/-- Modelled from the spec: `leaf_type_tree::SimpleUpdateFrom` specialised to
the union update (not under the selected sources) — the two trees (of the
same node type, hence the same leaf list) are combined leaf-by-leaf with
`ternary_ops::UpdateWithUnion`; `CHECK_OK` aborts on failure. -/
def SimpleUpdateFrom : TernaryTree → TernaryTree → Option TernaryTree
  | [], [] => some []
  | l :: ls, r :: rs =>
      match UpdateWithUnion l r, SimpleUpdateFrom ls rs with
      | some v, some rest => some (v :: rest)
      | _, _ => none
  | _, _ => none

/-- What one sub-engine answers about the node under consideration:
whether `IsTracked(node)` holds, and its `GetTernary(node)` tree. -/
structure EngineView where
  tracked : Bool
  ternary : TernaryTree
deriving DecidableEq

/-- The engine loop of `UnownedUnionQueryEngine::GetTernary`: each tracked
sub-engine's ternary tree is united into the accumulator. -/
def getTernaryLoop : List EngineView → TernaryTree → Option TernaryTree
  | [], acc => some acc
  | e :: rest, acc =>
      if e.tracked then
        match SimpleUpdateFrom acc e.ternary with
        | none => none
        | some acc1 => getTernaryLoop rest acc1
      else getTernaryLoop rest acc

/-- `UnownedUnionQueryEngine::GetTernary`, as a function of the node's leaf
widths and the sub-engines' views of the node. The result is initialised to
all-`kUnknown` vectors (one per leaf, of that leaf's flat bit count) and then
updated from every tracked sub-engine. `none` models a `CHECK_OK` abort. -/
def UnownedUnionQueryEngine.GetTernary (leaves : LeafWidths)
    (engines : List EngineView) : Option TernaryTree :=
  getTernaryLoop engines
    (leaves.map (fun w => List.replicate w TernaryValue.kUnknown))

/-- The ternary value of bit `bi` of leaf `li` in a ternary tree (unknown
when out of range). -/
def treeBit (t : TernaryTree) (li bi : Nat) : TernaryValue :=
  (t.getD li []).getD bi TernaryValue.kUnknown

/-! ## IR expression fragment for the two-way-select collapsing rule
    (select_simplification_pass portion of union_query_engine.cc)

A deep embedding of the node kinds the rule at lines 1417-1508 inspects and
constructs. The rule's `is_2way_select` guard restricts it to `Select` nodes
with exactly two cases (and such selects carry no default in the IR), so the
embedded `Expr.sel` is binary; the remaining guard condition — a single-bit
selector — is kept explicitly. Structural equality of expressions stands for
the pass's node (pointer) identity tests. Bit `0` is least significant. -/

inductive Expr where
  | var (id width : Nat)
  | lit (value width : Nat)
  | sel (selector case0 case1 : Expr)
  | unNot (e : Expr)
  | naryOr (a b : Expr)
  | naryNand (a b : Expr)
deriving DecidableEq

/-- Result bit-width of an expression (`BitCountOrDie`). -/
def Expr.width : Expr → Nat
  | Expr.var _ w => w
  | Expr.lit _ w => w
  | Expr.sel _ c0 _ => c0.width
  | Expr.unNot e => e.width
  | Expr.naryOr a _ => a.width
  | Expr.naryNand a _ => a.width

/-- Evaluation of an expression under an environment assigning values to
variables. Variables and literals are truncated to their width; a two-case
`Select` picks case 0 or case 1 by the selector value (a selector value
other than 0/1 is malformed for a two-case select — the IR type system
forces a 1-bit selector — and evaluates to 0 here). `unNot` and `naryNand`
complement within the operand's width. -/
def Expr.eval (env : Nat → Nat) : Expr → Nat
  | Expr.var i w => env i % 2 ^ w
  | Expr.lit v w => v % 2 ^ w
  | Expr.sel s c0 c1 =>
      match Expr.eval env s with
      | 0 => Expr.eval env c0
      | 1 => Expr.eval env c1
      | _ => 0
  | Expr.unNot e => (2 ^ e.width - 1) - Expr.eval env e
  | Expr.naryOr a b => Expr.eval env a ||| Expr.eval env b
  | Expr.naryNand a b => (2 ^ a.width - 1) - (Expr.eval env a &&& Expr.eval env b)

/-- `is_2way_select`: a `Select` with a single-bit selector and exactly two
cases (the two-case condition is structural for `Expr.sel`). -/
def is2waySelect : Expr → Bool
  | Expr.sel s _ _ => s.width = 1
  | _ => false

/-- The "collapse consecutive two-way selects with a common case" rule
(union_query_engine.cc lines 1417-1508). Given the node, returns the
replacement select `Select(p_x, {y, x})` when one of the four sub-cases
matches, `none` when the rule does not apply. Node-pointer comparisons
(`sel0->get_case(i) == sel1->get_case(j)`) become structural equality. -/
def collapseTwoWaySelect (node : Expr) : Option Expr :=
  if is2waySelect node then
    match node with
    | Expr.sel p0 case0 case1 =>
      if is2waySelect case0 then
        match case0 with
        | Expr.sel p1 s1case0 s1case1 =>
          if case1 = s1case0 then
            -- common case on the RHS of sel0, LHS of sel1: p_x = p0 | !p1
            some (Expr.sel (Expr.naryOr p0 (Expr.unNot p1)) s1case1 case1)
          else if case1 = s1case1 then
            -- common case on the RHS of both: p_x = p0 | p1
            some (Expr.sel (Expr.naryOr p0 p1) s1case0 case1)
          else none
        | _ => none
      else if is2waySelect case1 then
        match case1 with
        | Expr.sel p1 s1case0 s1case1 =>
          if case0 = s1case0 then
            -- common case on the LHS of both: p_x = nand(p0, p1)
            some (Expr.sel (Expr.naryNand p0 p1) s1case1 case0)
          else if case0 = s1case1 then
            -- common case on the LHS of sel0, RHS of sel1: p_x = !p0 | p1
            some (Expr.sel (Expr.naryOr (Expr.unNot p0) p1) s1case0 case0)
          else none
        | _ => none
      else none
    | _ => none
  else none

/-! ## Constant-selector `Select` reduction (union_query_engine.cc 724-741) -/

/-- A `Select` node whose selector the query engine reports fully known:
the selector's width and known value (`KnownValueAsBits`), the cases, and
the optional default value. Invariant of a fully-known selector:
`selValue < 2 ^ selWidth`. -/
structure KnownSelect (α : Type) where
  selWidth : Nat
  selValue : Nat
  cases : List α
  dflt : Option α

/-- `bits_ops::UGreaterThan`: unsigned numeric comparison of two `Bits`. -/
def UGreaterThan (a b : Nat) : Bool := decide (a > b)

/-- `UBits(value, width)`: a `Bits` of the given width holding `value`;
`CHECK`-fails (here `none`) when the value does not fit. -/
def UBits (value w : Nat) : Option Nat :=
  if value < 2 ^ w then some value else none

/-- The constant-selector rule of `SimplifyNode`:

```
if (bits_ops::UGreaterThan(selector, UBits(cases.size() - 1, bits))) {
  XLS_RET_CHECK(sel->default_value().has_value());
  ... ReplaceUsesWith(*sel->default_value()) ...
} else {
  ... ReplaceUsesWith(sel->get_case(selector)) ...
}
return true;
```

`some r` is "all uses replaced with `r`, change reported"; `none` models the
fatal paths (`UBits` overflow `CHECK`, missing default `RET_CHECK`). -/
def simplifySelectConstantSelector {α : Type} (sel : KnownSelect α) : Option α :=
  match UBits (sel.cases.length - 1) sel.selWidth with
  | none => none
  | some bound =>
      if UGreaterThan sel.selValue bound then sel.dflt
      else sel.cases.get? sel.selValue

/-! ## Priority-select known-prefix reduction (union_query_engine.cc 743-768) -/

/-- The outcome of the priority-select known-prefix rule. -/
inductive PrioritySelRewrite (α : Type) where
  | toZeroLiteral : PrioritySelRewrite α
  | toCase : α → PrioritySelRewrite α
  | noChange : PrioritySelRewrite α
deriving DecidableEq

/-- `absl::c_find_if(selector, v != kKnownZero)`: the index of the first
selector bit (from bit 0 upward) that is not known-zero, `none` when every
bit is known-zero. -/
def findFirstNonzeroBit : TernaryVector → Option Nat
  | [] => none
  | v :: rest =>
      if v ≠ TernaryValue.kKnownZero then some 0
      else (findFirstNonzeroBit rest).map (fun i => i + 1)

/-- The priority-select known-prefix rule of `SimplifyNode`: scan the
selector's ternary value for the first bit that is not known-zero
(`absl::c_find_if`). All bits known-zero replaces the node with a zero
literal of its type; a first non-known-zero bit that is known-one replaces
the node with the case at that index (`none` models `get_case` on an
out-of-range index, which the IR verifier rules out); an unknown first bit
leaves the node unchanged by this rule. -/
def simplifyPrioritySelectKnownPrefix {α : Type} (selector : TernaryVector)
    (cases : List α) : Option (PrioritySelRewrite α) :=
  match findFirstNonzeroBit selector with
  | none => some PrioritySelRewrite.toZeroLiteral
  | some i =>
      if selector.getD i TernaryValue.kUnknown = TernaryValue.kKnownOne then
        match cases.get? i with
        | some c => some (PrioritySelRewrite.toCase c)
        | none => none
      else some PrioritySelRewrite.noChange

/-! ## `MemoryModel` (name_legalization_pass.cc lines 1790-1873) -/

/-- A simulated channel/memory value: its flat bit count and payload
(`Value::GetFlatBitCount` is all `MemoryModel::Write` inspects). -/
structure SimValue where
  width : Nat
  data : Nat
deriving DecidableEq

/-- The absl error codes the memory model returns. -/
inductive MemError where
  | outOfRange
  | failedPrecondition
deriving DecidableEq

/-- The synchronous memory model: cells plus the single-pending-write and
single-pending-read staging registers. -/
structure MemoryModel where
  cells : List SimValue
  writeThisTick : Option (Nat × SimValue)
  readThisTick : Option SimValue
  readLastTick : Option SimValue
deriving DecidableEq

/-- `MemoryModel::Write`: out-of-range address → `OutOfRangeError`; a write
already staged this tick → `FailedPreconditionError`; mismatched flat bit
count against `cells_[0]` → `FailedPreconditionError`; otherwise the write
is staged (cells untouched until `Tick`). Addresses are modelled as `Nat`
(the `addr < 0` branch of the `int64_t` check cannot fire). -/
def MemoryModel.Write (m : MemoryModel) (addr : Nat) (value : SimValue) :
    Except MemError MemoryModel :=
  if addr ≥ m.cells.length then Except.error MemError.outOfRange
  else if m.writeThisTick.isSome then Except.error MemError.failedPrecondition
  else if value.width ≠ (m.cells.headD ⟨0, 0⟩).width then
    Except.error MemError.failedPrecondition
  else Except.ok { m with writeThisTick := some (addr, value) }

/-- `MemoryModel::Read`: out-of-range address → `OutOfRangeError`; a read
already staged this tick → `FailedPreconditionError`; otherwise the
addressed cell is latched into the read staging register. -/
def MemoryModel.Read (m : MemoryModel) (addr : Nat) : Except MemError MemoryModel :=
  if h : addr ≥ m.cells.length then Except.error MemError.outOfRange
  else if m.readThisTick.isSome then Except.error MemError.failedPrecondition
  else Except.ok { m with readThisTick := some (m.cells.get ⟨addr, by omega⟩) }

/-- `MemoryModel::Tick`: commit the staged write into the cells and clear
it; move the staged read into the last-tick read register. -/
def MemoryModel.Tick (m : MemoryModel) : MemoryModel :=
  { cells :=
      match m.writeThisTick with
      | some (a, v) => m.cells.set a v
      | none => m.cells
    writeThisTick := none
    readThisTick := none
    readLastTick := m.readThisTick }

/-! ## `RunBlock` input-channel valid driving
    (name_legalization_pass.cc lines 2061-2110 and 2141-2160)

In the source, `asserted_valids` is declared INSIDE the per-cycle `for`
loop (line 2073), so it is freshly empty at the start of every cycle; the
membership test at line 2086 that implements the "Don't bring valid low
without a transaction" comment therefore never sees a previous cycle's
insertion. The model reproduces this faithfully for one ready/valid input
channel (channels are handled independently). -/

/-- The valid bit driven for a ready/valid input channel in one cycle:

```
const bool asserted_valid = asserted_valids.contains(name);   // set created
const bool random_go_head = absl::Bernoulli(...);             // this cycle
const bool this_valid = asserted_valid || (random_go_head && !queue.empty());
```

Because `asserted_valids` is constructed at the top of the same cycle's
loop body, `asserted_valid` is `false` here. -/
def cycleValid (bernoulli : Bool) (queue : List SimValue) : Bool :=
  let asserted_valid := false
  asserted_valid || (bernoulli && !queue.isEmpty)

/-- One post-reset cycle for one ready/valid input channel: the driven
valid, and the queue after the transaction check
(`if (vld_value && rdy_value) queue.pop_front()`). -/
def inputChannelCycle (bernoulli ready : Bool) (queue : List SimValue) :
    Bool × List SimValue :=
  let thisValid := cycleValid bernoulli queue
  if thisValid && ready then (thisValid, queue.tail) else (thisValid, queue)

/-- The valid bits driven for one input channel over post-reset cycles
`0, 1, 2, ...`, given the per-cycle Bernoulli draws and the block's ready
outputs. -/
def inputChannelValids (bernoulli ready : Nat → Bool) :
    Nat → List SimValue → List Bool
  | 0, _ => []
  | n + 1, queue =>
      let (v, queue1) := inputChannelCycle (bernoulli 0) (ready 0) queue
      v :: inputChannelValids (fun i => bernoulli (i + 1)) (fun i => ready (i + 1))
        n queue1

/-! ## `RunBlock` termination / no-output timeout
    (name_legalization_pass.cc lines 2061-2270)

The cycle loop, abstracted over what the block does each cycle:
`produced c` says whether cycle `c` matched at least one expected output
(which sets `last_output_cycle = cycle`), and `drained c` whether all
ready/valid output-channel expected queues are empty after cycle `c`'s
processing. Output-mismatch and assertion failures abort earlier and are
outside this model. Cycle 0 is the reset cycle: it sets
`last_output_cycle = 0` and `continue`s before any of the checks. -/

/-- Result of the `RunBlock` cycle loop: normal completion or the
`OutOfRangeError("Block didn't produce output for %i cycles")`, each tagged
with the cycle it happened in; `fuelOut` when the supplied fuel ran out
before the loop decided. -/
inductive BlockRunResult where
  | doneOk (cycle : Nat)
  | timeoutError (cycle : Nat)
  | fuelOut
deriving DecidableEq

/-- The `RunBlock` cycle loop. Per cycle (after reset): update
`last_output_cycle` if an output was matched; break successfully once all
output queues are drained; otherwise fail with the out-of-range error when
`cycle - last_output_cycle > max_cycles_no_output`. -/
def runBlockLoop (maxCyclesNoOutput : Nat) (produced drained : Nat → Bool) :
    Nat → Nat → Nat → BlockRunResult
  | 0, _, _ => BlockRunResult.fuelOut
  | fuel + 1, cycle, lastOutputCycle =>
      if cycle = 0 then
        -- `if (resetting) { last_output_cycle = cycle; continue; }`
        runBlockLoop maxCyclesNoOutput produced drained fuel (cycle + 1) cycle
      else
        -- `last_output_cycle = cycle` on a matched output, then the drained
        -- check, then the no-output timeout check
        if drained cycle then BlockRunResult.doneOk cycle
        else if cycle - (if produced cycle then cycle else lastOutputCycle)
            > maxCyclesNoOutput then
          BlockRunResult.timeoutError cycle
        else runBlockLoop maxCyclesNoOutput produced drained fuel (cycle + 1)
          (if produced cycle then cycle else lastOutputCycle)

/-- `RunBlock`'s cycle loop from the start (cycle 0, `last_output_cycle`
initially 0). -/
def runBlock (maxCyclesNoOutput : Nat) (produced drained : Nat → Bool)
    (fuel : Nat) : BlockRunResult :=
  runBlockLoop maxCyclesNoOutput produced drained fuel 0 0

/-- The value `last_output_cycle` holds when the loop reaches cycle `c ≥ 1`
(before `c`'s own update): the most recent cycle in `1..c-1` where an
output was matched, or the reset cycle 0 if none was. -/
def lastOutputBefore (produced : Nat → Bool) : Nat → Nat
  | 0 => 0
  | c + 1 => if c = 0 then 0 else if produced c then c else lastOutputBefore produced c

/-! ## `EvaluateProcs` negative tick count ("run until convergence")
    (name_legalization_pass.cc lines 1481-1660)

The proc network itself (the `runtime->Tick()` effect on the channel
queues) is external to the selected loop; it enters the model as an
arbitrary step function on the observable state. The state tracks, per
expected-output channel, the values its queue has accumulated, and per
input channel, its queue and whether it is a single-value channel. -/

/-- Observable channel state of the proc network during `EvaluateProcs`. -/
structure EvalState where
  outs : List (List SimValue)
  ins : List (Bool × List SimValue)
deriving DecidableEq

/-- `all_outputs_produced`: every channel with expected outputs has
accumulated at least as many values as expected. -/
def allOutputsProduced (expected : List (List SimValue)) (s : EvalState) : Bool :=
  (expected.zip s.outs).all (fun p => p.2.length ≥ p.1.length)

/-- The `unconsumed_inputs` map assembled at convergence: the full contents
of each non-single-value (streaming) input queue that is not empty, drained
in channel order. The warning is emitted exactly when this is non-empty. -/
def unconsumedInputs (s : EvalState) : List (List SimValue) :=
  (s.ins.filter (fun c => !c.1)).map (fun c => c.2) |>.filter (fun q => q ≠ [])

/-- One expected-output channel's verification loop: each expected value is
read from the accumulated outputs in order; a missing or mismatched value
is an error (so the channel verifies cleanly iff the expected list is a
leading run of the accumulated values). -/
def channelMatches : List SimValue → List SimValue → Bool
  | [], _ => true
  | _ :: _, [] => false
  | e :: es, o :: os => if e = o then channelMatches es os else false

/-- Post-loop output verification (lines 1605-1640): errors are collected
across all channels; the run succeeds when no channel errs and, if any
outputs were expected, at least one value was actually checked
(`checked_any_output`). -/
def verifyOutputs (expected : List (List SimValue)) (outs : List (List SimValue)) :
    Bool :=
  ((expected.zip outs).all (fun p => channelMatches p.1 p.2)) &&
    (expected.isEmpty || (expected.zip outs).any (fun p => !p.1.isEmpty))

/-- Result of one `--ticks`-negative run of `EvaluateProcs`. -/
inductive ProcRunResult where
  | success (ticksRun : Nat) (unconsumed : List (List SimValue))
  | outputMismatch (ticksRun : Nat)
  | assertFailure (ticksRun : Nat)
  | fuelOut
deriving DecidableEq

/-- The negative-tick-count loop of `EvaluateProcs`: tick, fail on fired
assertions when `fail_on_assert` is set, and once every channel with
expected outputs has produced at least as many values as expected, stop,
drain the streaming input queues (warning if any values remain), and verify
the outputs. `tickFn` is the proc network's effect on the channel state for
one `runtime->Tick()`; `assertsFn` the assertion messages that tick fires
(message identities abstracted to counts-by-position). -/
def evalProcsLoop (tickFn : EvalState → EvalState)
    (assertsFn : EvalState → List Nat) (failOnAssert : Bool)
    (expected : List (List SimValue)) :
    Nat → Nat → EvalState → ProcRunResult
  | 0, _, _ => ProcRunResult.fuelOut
  | fuel + 1, ticksRun, s =>
      if failOnAssert && !(assertsFn s).isEmpty then
        ProcRunResult.assertFailure (ticksRun + 1)
      else if allOutputsProduced expected (tickFn s) then
        if verifyOutputs expected (tickFn s).outs then
          ProcRunResult.success (ticksRun + 1) (unconsumedInputs (tickFn s))
        else ProcRunResult.outputMismatch (ticksRun + 1)
      else evalProcsLoop tickFn assertsFn failOnAssert expected fuel (ticksRun + 1)
        (tickFn s)

/-- `EvaluateProcs` with a negative tick count, from the initial state. -/
def evalProcsNegativeTicks (tickFn : EvalState → EvalState)
    (assertsFn : EvalState → List Nat) (failOnAssert : Bool)
    (expected : List (List SimValue)) (fuel : Nat) (s0 : EvalState) :
    ProcRunResult :=
  evalProcsLoop tickFn assertsFn failOnAssert expected fuel 0 s0

/-! ## Helper lemmas -/

theorem populateStep_unchanged (rf : ReachedFixpoint) :
    populateStep ReachedFixpoint.Unchanged rf = rf := by
  cases rf <;> rfl

theorem populateStep_unknown_absorbs (rf : ReachedFixpoint) :
    populateStep ReachedFixpoint.Unknown rf = ReachedFixpoint.Unknown := by
  cases rf <;> rfl

theorem populateStep_changed (rf : ReachedFixpoint) :
    populateStep ReachedFixpoint.Changed rf =
      (if rf = ReachedFixpoint.Unknown then ReachedFixpoint.Unknown
       else ReachedFixpoint.Changed) := by
  cases rf <;> rfl

theorem foldl_populateStep_unknown (rs : List ReachedFixpoint) :
    rs.foldl populateStep ReachedFixpoint.Unknown = ReachedFixpoint.Unknown := by
  induction rs with
  | nil => rfl
  | cons r rs ih => simpa [populateStep_unknown_absorbs] using ih

theorem foldl_populateStep_changed (rs : List ReachedFixpoint) :
    rs.foldl populateStep ReachedFixpoint.Changed =
      (if ReachedFixpoint.Unknown ∈ rs then ReachedFixpoint.Unknown
       else ReachedFixpoint.Changed) := by
  induction rs with
  | nil => rfl
  | cons r rs ih =>
    by_cases hr : r = ReachedFixpoint.Unknown
    · subst hr
      simp [List.foldl, populateStep_changed, foldl_populateStep_unknown]
    · simp [List.foldl, populateStep_changed, hr, ih, Ne.symm hr]

theorem populateLoop_map_ok {ε : Type} (rs : List ReachedFixpoint)
    (acc : ReachedFixpoint) :
    populateLoop (rs.map (Except.ok : ReachedFixpoint → Except ε ReachedFixpoint))
      acc = Except.ok (rs.foldl populateStep acc) := by
  induction rs generalizing acc with
  | nil => rfl
  | cons r rs ih => simp [populateLoop, List.foldl, ih]

theorem populateLoop_first_error {ε : Type} (oks : List ReachedFixpoint) (e : ε)
    (rest : List (Except ε ReachedFixpoint)) (acc : ReachedFixpoint) :
    populateLoop (oks.map Except.ok ++ Except.error e :: rest) acc
      = Except.error e := by
  induction oks generalizing acc with
  | nil => rfl
  | cons r rs ih => simpa [populateLoop] using ih (populateStep acc r)

/-! ## Claim C4 -/

/-- C4: `UnownedUnionQueryEngine::Populate` calls every sub-engine's
`Populate` in order and folds their fixpoint statuses, starting from
`Unchanged`, under the lattice rules: an `Unchanged` accumulator is replaced
by the sub-engine's status, a `Changed` accumulator degrades to `Unknown`
exactly when some sub-engine reports `Unknown`, `Unknown` is absorbing; the
first failing sub-engine's error is propagated. -/
theorem Populate_combines_fixpoint_statuses {ε : Type} :
    (∀ rs : List ReachedFixpoint,
        UnownedUnionQueryEngine.Populate
            (rs.map (Except.ok : ReachedFixpoint → Except ε ReachedFixpoint))
          = Except.ok (rs.foldl populateStep ReachedFixpoint.Unchanged)) ∧
    (∀ rf : ReachedFixpoint, populateStep ReachedFixpoint.Unchanged rf = rf) ∧
    (∀ rs : List ReachedFixpoint,
        rs.foldl populateStep ReachedFixpoint.Changed = ReachedFixpoint.Unknown
          ↔ ReachedFixpoint.Unknown ∈ rs) ∧
    (∀ rs : List ReachedFixpoint,
        ReachedFixpoint.Unknown ∉ rs →
          rs.foldl populateStep ReachedFixpoint.Changed = ReachedFixpoint.Changed) ∧
    (∀ rs : List ReachedFixpoint,
        rs.foldl populateStep ReachedFixpoint.Unknown = ReachedFixpoint.Unknown) ∧
    (∀ (oks : List ReachedFixpoint) (e : ε) (rest : List (Except ε ReachedFixpoint)),
        UnownedUnionQueryEngine.Populate (oks.map Except.ok ++ Except.error e :: rest)
          = Except.error e) := by
  refine ⟨fun rs => populateLoop_map_ok rs _, populateStep_unchanged, fun rs => ?_,
    fun rs h => ?_, foldl_populateStep_unknown,
    fun oks e rest => populateLoop_first_error oks e rest _⟩
  · rw [foldl_populateStep_changed]
    by_cases h : ReachedFixpoint.Unknown ∈ rs <;> simp [h]
  · rw [foldl_populateStep_changed]
    simp [h]

/-- Witness for C4 at concrete inputs: statuses `[Changed, Unknown]` combine
to `Unknown`, and an error in the middle of the engine list is returned as
the overall result. -/
theorem Populate_combines_fixpoint_statuses_witness :
    UnownedUnionQueryEngine.Populate
        ([ReachedFixpoint.Changed, ReachedFixpoint.Unknown].map
          (Except.ok : ReachedFixpoint → Except Nat ReachedFixpoint))
      = Except.ok ReachedFixpoint.Unknown ∧
    UnownedUnionQueryEngine.Populate
        ([ReachedFixpoint.Changed].map Except.ok ++
          Except.error 7 :: [(Except.ok ReachedFixpoint.Unchanged :
            Except Nat ReachedFixpoint)])
      = Except.error 7 ∧
    ([ReachedFixpoint.Changed, ReachedFixpoint.Unchanged].foldl populateStep
        ReachedFixpoint.Changed = ReachedFixpoint.Changed) := by
  refine ⟨?_, ?_, ?_⟩
  · have h := (Populate_combines_fixpoint_statuses (ε := Nat)).1
      [ReachedFixpoint.Changed, ReachedFixpoint.Unknown]
    simpa using h
  · exact (Populate_combines_fixpoint_statuses (ε := Nat)).2.2.2.2.2
      [ReachedFixpoint.Changed] 7 [Except.ok ReachedFixpoint.Unchanged]
  · exact (Populate_combines_fixpoint_statuses (ε := Nat)).2.2.2.1
      [ReachedFixpoint.Changed, ReachedFixpoint.Unchanged] (by decide)


/-! ## Helper lemmas for `GetTernary` -/

theorem unionBit_keeps_right (l r b : TernaryValue) (h : unionBit l r = some b)
    (hr : r ≠ TernaryValue.kUnknown) : b = r := by
  cases l <;> cases r <;> simp_all [unionBit]

theorem unionBit_keeps_left (l r b : TernaryValue) (h : unionBit l r = some b)
    (hl : l ≠ TernaryValue.kUnknown) : b = l := by
  cases l <;> cases r <;> simp_all [unionBit]

theorem UpdateWithUnion_length (l r out : TernaryVector)
    (h : UpdateWithUnion l r = some out) : out.length = l.length := by
  induction l generalizing r out with
  | nil => cases r <;> simp_all [UpdateWithUnion]
  | cons x xs ih =>
    cases r with
    | nil => simp_all [UpdateWithUnion]
    | cons y ys =>
      cases hb : unionBit x y <;> cases hrest : UpdateWithUnion xs ys <;>
        simp only [UpdateWithUnion, hb, hrest, Option.some.injEq,
          reduceCtorEq] at h
      subst h
      simp [ih ys _ hrest]

theorem UpdateWithUnion_keeps_right (l r out : TernaryVector)
    (h : UpdateWithUnion l r = some out) (i : Nat)
    (hk : r.getD i TernaryValue.kUnknown ≠ TernaryValue.kUnknown) :
    out.getD i TernaryValue.kUnknown = r.getD i TernaryValue.kUnknown := by
  induction l generalizing r out i with
  | nil => cases r <;> simp_all [UpdateWithUnion]
  | cons x xs ih =>
    cases r with
    | nil => simp_all [UpdateWithUnion]
    | cons y ys =>
      cases hb : unionBit x y <;> cases hrest : UpdateWithUnion xs ys <;>
        simp only [UpdateWithUnion, hb, hrest, Option.some.injEq,
          reduceCtorEq] at h
      subst h
      cases i with
      | zero =>
        simpa using unionBit_keeps_right x y _ hb (by simpa using hk)
      | succ j =>
        simpa using ih ys _ hrest j (by simpa using hk)

theorem UpdateWithUnion_keeps_left (l r out : TernaryVector)
    (h : UpdateWithUnion l r = some out) (i : Nat)
    (hk : l.getD i TernaryValue.kUnknown ≠ TernaryValue.kUnknown) :
    out.getD i TernaryValue.kUnknown = l.getD i TernaryValue.kUnknown := by
  induction l generalizing r out i with
  | nil => simp_all
  | cons x xs ih =>
    cases r with
    | nil => simp_all [UpdateWithUnion]
    | cons y ys =>
      cases hb : unionBit x y <;> cases hrest : UpdateWithUnion xs ys <;>
        simp only [UpdateWithUnion, hb, hrest, Option.some.injEq,
          reduceCtorEq] at h
      subst h
      cases i with
      | zero =>
        simpa using unionBit_keeps_left x y _ hb (by simpa using hk)
      | succ j =>
        simpa using ih ys _ hrest j (by simpa using hk)

theorem SimpleUpdateFrom_profile (l r out : TernaryTree)
    (h : SimpleUpdateFrom l r = some out) :
    out.map List.length = l.map List.length := by
  induction l generalizing r out with
  | nil => cases r <;> simp_all [SimpleUpdateFrom]
  | cons x xs ih =>
    cases r with
    | nil => simp_all [SimpleUpdateFrom]
    | cons y ys =>
      cases hb : UpdateWithUnion x y <;> cases hrest : SimpleUpdateFrom xs ys <;>
        simp only [SimpleUpdateFrom, hb, hrest, Option.some.injEq,
          reduceCtorEq] at h
      subst h
      simp [UpdateWithUnion_length x y _ hb, ih ys _ hrest]

theorem SimpleUpdateFrom_keeps_right (l r out : TernaryTree)
    (h : SimpleUpdateFrom l r = some out) (li bi : Nat)
    (hk : treeBit r li bi ≠ TernaryValue.kUnknown) :
    treeBit out li bi = treeBit r li bi := by
  induction l generalizing r out li with
  | nil => cases r <;> simp_all [SimpleUpdateFrom, treeBit]
  | cons x xs ih =>
    cases r with
    | nil => simp_all [SimpleUpdateFrom, treeBit]
    | cons y ys =>
      cases hb : UpdateWithUnion x y <;> cases hrest : SimpleUpdateFrom xs ys <;>
        simp only [SimpleUpdateFrom, hb, hrest, Option.some.injEq,
          reduceCtorEq] at h
      subst h
      cases li with
      | zero =>
        simpa [treeBit] using
          UpdateWithUnion_keeps_right x y _ hb bi (by simpa [treeBit] using hk)
      | succ lj =>
        simpa [treeBit] using ih ys _ hrest lj (by simpa [treeBit] using hk)

theorem SimpleUpdateFrom_keeps_left (l r out : TernaryTree)
    (h : SimpleUpdateFrom l r = some out) (li bi : Nat)
    (hk : treeBit l li bi ≠ TernaryValue.kUnknown) :
    treeBit out li bi = treeBit l li bi := by
  induction l generalizing r out li with
  | nil => simp_all [treeBit]
  | cons x xs ih =>
    cases r with
    | nil => simp_all [SimpleUpdateFrom, treeBit]
    | cons y ys =>
      cases hb : UpdateWithUnion x y <;> cases hrest : SimpleUpdateFrom xs ys <;>
        simp only [SimpleUpdateFrom, hb, hrest, Option.some.injEq,
          reduceCtorEq] at h
      subst h
      cases li with
      | zero =>
        simpa [treeBit] using
          UpdateWithUnion_keeps_left x y _ hb bi (by simpa [treeBit] using hk)
      | succ lj =>
        simpa [treeBit] using ih ys _ hrest lj (by simpa [treeBit] using hk)

theorem getTernaryLoop_keeps_known (engines : List EngineView)
    (out : TernaryTree) (li bi : Nat) :
    ∀ acc : TernaryTree, getTernaryLoop engines acc = some out →
      treeBit acc li bi ≠ TernaryValue.kUnknown →
      treeBit out li bi = treeBit acc li bi := by
  induction engines with
  | nil =>
    intro acc h hk
    simp only [getTernaryLoop, Option.some.injEq] at h
    subst h
    rfl
  | cons e rest ih =>
    intro acc h hk
    by_cases he : e.tracked
    · simp only [getTernaryLoop, he, if_true] at h
      cases hu : SimpleUpdateFrom acc e.ternary with
      | none => rw [hu] at h; cases h
      | some acc1 =>
        rw [hu] at h
        have hkeep := SimpleUpdateFrom_keeps_left acc e.ternary acc1 hu li bi hk
        have h2 := ih acc1 h (by rw [hkeep]; exact hk)
        rw [h2, hkeep]
    · simp only [getTernaryLoop, he, if_false, Bool.false_eq_true] at h
      exact ih acc h hk

theorem getTernaryLoop_profile (engines : List EngineView) (out : TernaryTree) :
    ∀ acc : TernaryTree, getTernaryLoop engines acc = some out →
      out.map List.length = acc.map List.length := by
  induction engines with
  | nil =>
    intro acc h
    simp only [getTernaryLoop, Option.some.injEq] at h
    subst h
    rfl
  | cons e rest ih =>
    intro acc h
    by_cases he : e.tracked
    · simp only [getTernaryLoop, he, if_true] at h
      cases hu : SimpleUpdateFrom acc e.ternary with
      | none => rw [hu] at h; cases h
      | some acc1 =>
        rw [hu] at h
        rw [ih acc1 h, SimpleUpdateFrom_profile acc e.ternary acc1 hu]
    · simp only [getTernaryLoop, he, if_false, Bool.false_eq_true] at h
      exact ih acc h

theorem getTernaryLoop_append (xs ys : List EngineView) :
    ∀ acc : TernaryTree, getTernaryLoop (xs ++ ys) acc =
      match getTernaryLoop xs acc with
      | none => none
      | some mid => getTernaryLoop ys mid := by
  induction xs with
  | nil => intro acc; simp [getTernaryLoop]
  | cons e rest ih =>
    intro acc
    by_cases he : e.tracked
    · simp only [List.cons_append, getTernaryLoop, he, if_true]
      cases hu : SimpleUpdateFrom acc e.ternary with
      | none => rfl
      | some acc1 => exact ih acc1
    · simp only [List.cons_append, getTernaryLoop, he, if_false,
        Bool.false_eq_true]
      exact ih acc

theorem getTernaryLoop_untracked (engines : List EngineView)
    (hun : ∀ e ∈ engines, e.tracked = false) (acc : TernaryTree) :
    getTernaryLoop engines acc = some acc := by
  induction engines with
  | nil => rfl
  | cons e rest ih =>
    have he := hun e (by simp)
    simp only [getTernaryLoop, he, Bool.false_eq_true, if_false]
    exact ih (fun x hx => hun x (by simp [hx]))

/-! ## Claim C5 -/

/-- C5: for every node and every sub-engine of a union query engine, every
bit the sub-engine's `GetTernary` reports as known (`kKnownZero` or
`kKnownOne`) is reported as known with the same value by the union engine's
`GetTernary` — the union's answer is at least as precise as each individual
engine's. -/
theorem GetTernary_union_at_least_as_precise (leaves : LeafWidths)
    (engines : List EngineView) (E : EngineView) (out : TernaryTree)
    (hmem : E ∈ engines) (htr : E.tracked = true)
    (hout : UnownedUnionQueryEngine.GetTernary leaves engines = some out)
    (li bi : Nat) (hknown : treeBit E.ternary li bi ≠ TernaryValue.kUnknown) :
    treeBit out li bi = treeBit E.ternary li bi := by
  obtain ⟨pre, post, rfl⟩ := List.append_of_mem hmem
  unfold UnownedUnionQueryEngine.GetTernary at hout
  rw [getTernaryLoop_append] at hout
  cases hpre : getTernaryLoop pre
      (leaves.map (fun w => List.replicate w TernaryValue.kUnknown)) with
  | none => rw [hpre] at hout; cases hout
  | some mid =>
    rw [hpre] at hout
    simp only [getTernaryLoop, htr, if_true] at hout
    cases hu : SimpleUpdateFrom mid E.ternary with
    | none => rw [hu] at hout; cases hout
    | some mid2 =>
      rw [hu] at hout
      have hb2 := SimpleUpdateFrom_keeps_right mid E.ternary mid2 hu li bi hknown
      have h3 := getTernaryLoop_keeps_known post out li bi mid2 hout
        (by rw [hb2]; exact hknown)
      rw [h3, hb2]

/-- Witness for C5: two tracked engines each knowing a different bit of a
2-bit node; the union preserves the second engine's known bit. -/
theorem GetTernary_union_at_least_as_precise_witness :
    treeBit [[TernaryValue.kKnownOne, TernaryValue.kKnownZero]] 0 1
      = treeBit [[TernaryValue.kUnknown, TernaryValue.kKnownZero]] 0 1 := by
  exact GetTernary_union_at_least_as_precise [2]
    [⟨true, [[TernaryValue.kKnownOne, TernaryValue.kUnknown]]⟩,
     ⟨true, [[TernaryValue.kUnknown, TernaryValue.kKnownZero]]⟩]
    ⟨true, [[TernaryValue.kUnknown, TernaryValue.kKnownZero]]⟩
    [[TernaryValue.kKnownOne, TernaryValue.kKnownZero]]
    (by decide) rfl (by decide) 0 1 (by decide)

/-! ## Claim C10 -/

/-- C10: `UnownedUnionQueryEngine::GetTernary` is total over nodes: when no
sub-engine tracks the node (including a union of zero sub-engines) it
returns, rather than failing, the all-unknown tree with one vector of the
leaf's flat bit count per leaf; and whatever it returns has, for each leaf,
a vector whose length is that leaf's flat bit count. -/
theorem GetTernary_total (leaves : LeafWidths) (engines : List EngineView) :
    ((∀ e ∈ engines, e.tracked = false) →
        UnownedUnionQueryEngine.GetTernary leaves engines
          = some (leaves.map (fun w => List.replicate w TernaryValue.kUnknown))) ∧
    (∀ out : TernaryTree,
        UnownedUnionQueryEngine.GetTernary leaves engines = some out →
          out.map List.length = leaves) := by
  constructor
  · intro hun
    exact getTernaryLoop_untracked engines hun _
  · intro out hout
    have hp := getTernaryLoop_profile engines out _ hout
    rw [hp, List.map_map]
    have hcomp : (List.length ∘ fun w => List.replicate w TernaryValue.kUnknown)
        = id := by
      funext w
      simp
    rw [hcomp, List.map_id]

/-- Witness for C10: a node of leaf widths `[2, 3]` with one untracked
sub-engine yields the all-unknown tree, whose per-leaf lengths are `[2, 3]`. -/
theorem GetTernary_total_witness :
    UnownedUnionQueryEngine.GetTernary [2, 3] [⟨false, [[TernaryValue.kKnownOne]]⟩]
      = some ([2, 3].map (fun w => List.replicate w TernaryValue.kUnknown)) ∧
    ([2, 3].map (fun w => List.replicate w TernaryValue.kUnknown)).map List.length
      = [2, 3] := by
  constructor
  · exact (GetTernary_total [2, 3] [⟨false, [[TernaryValue.kKnownOne]]⟩]).1 (by decide)
  · exact (GetTernary_total [2, 3] [⟨false, [[TernaryValue.kKnownOne]]⟩]).2 _
      (((GetTernary_total [2, 3] [⟨false, [[TernaryValue.kKnownOne]]⟩]).1 (by decide)))

/-! ## Claim C3 -/

/-- C3: for a `Select` whose selector is fully known, the pass replaces all
uses with the case at the selector's value when that value is at most
case-count minus one, and with the default value when the selector's value
is at least the case count; both outcomes report a change (`some`). In
particular `Select(selector = known 1, cases=[a, b])` is replaced by `b`.
The hypotheses are IR invariants: a `Select` has at least one case, and its
case count minus one fits in the selector's width (otherwise the `UBits`
call in the source `CHECK`-fails). -/
theorem simplifySelect_constant_selector {α : Type} (sel : KnownSelect α)
    (hne : sel.cases ≠ [])
    (hfit : sel.cases.length - 1 < 2 ^ sel.selWidth) :
    (sel.selValue ≤ sel.cases.length - 1 →
        ∃ c, sel.cases.get? sel.selValue = some c ∧
          simplifySelectConstantSelector sel = some c) ∧
    (sel.cases.length ≤ sel.selValue →
        simplifySelectConstantSelector sel = sel.dflt) ∧
    (∀ a b : α, simplifySelectConstantSelector ⟨2, 1, [a, b], none⟩ = some b) := by
  have hlen : 0 < sel.cases.length := List.length_pos.mpr hne
  refine ⟨fun hle => ?_, fun hge => ?_, fun a b => rfl⟩
  · have hlt : sel.selValue < sel.cases.length := by omega
    refine ⟨sel.cases.get ⟨sel.selValue, hlt⟩, List.get?_eq_get hlt, ?_⟩
    unfold simplifySelectConstantSelector UBits UGreaterThan
    rw [if_pos hfit]
    have hngt : ¬(sel.selValue > sel.cases.length - 1) := by omega
    simp [hngt, List.get?_eq_get hlt]
  · unfold simplifySelectConstantSelector UBits UGreaterThan
    rw [if_pos hfit]
    have hgt : sel.selValue > sel.cases.length - 1 := by omega
    simp [hgt]

/-- Witness for C3: `Select(known 1, [5, 6])` is replaced by `6`, and
`Select(known 3, [10, 20], default=30)` by the default `30`. -/
theorem simplifySelect_constant_selector_witness :
    simplifySelectConstantSelector (⟨2, 1, [5, 6], none⟩ : KnownSelect Nat)
      = some 6 ∧
    simplifySelectConstantSelector (⟨2, 3, [10, 20], some 30⟩ : KnownSelect Nat)
      = some 30 := by
  constructor
  · exact (simplifySelect_constant_selector
      (⟨2, 1, [5, 6], none⟩ : KnownSelect Nat) (by decide) (by decide)).2.2 5 6
  · exact (simplifySelect_constant_selector
      (⟨2, 3, [10, 20], some 30⟩ : KnownSelect Nat) (by decide) (by decide)).2.1
      (by decide)

/-! ## Helper lemmas for the priority-select rule -/

theorem findFirstNonzeroBit_none (sel : TernaryVector)
    (h : ∀ v ∈ sel, v = TernaryValue.kKnownZero) :
    findFirstNonzeroBit sel = none := by
  induction sel with
  | nil => rfl
  | cons v rest ih =>
    have hv := h v (by simp)
    simp only [findFirstNonzeroBit, hv]
    rw [ih (fun x hx => h x (by simp [hx]))]
    rfl

theorem findFirstNonzeroBit_first (sel : TernaryVector) :
    ∀ i : Nat, i < sel.length →
      (∀ j, j < i → sel.getD j TernaryValue.kUnknown = TernaryValue.kKnownZero) →
      sel.getD i TernaryValue.kUnknown ≠ TernaryValue.kKnownZero →
      findFirstNonzeroBit sel = some i := by
  induction sel with
  | nil =>
    intro i hi _ _
    simp at hi
  | cons v rest ih =>
    intro i hi hzero hnz
    cases i with
    | zero =>
      have : v ≠ TernaryValue.kKnownZero := by simpa using hnz
      simp [findFirstNonzeroBit, this]
    | succ j =>
      have hv : v = TernaryValue.kKnownZero := by simpa using hzero 0 (by omega)
      have hres := ih j (by simpa using hi)
        (fun k hk => by simpa using hzero (k + 1) (by omega))
        (by simpa using hnz)
      simp [findFirstNonzeroBit, hv, hres]

/-! ## Claim C6 -/

/-- C6: for a `PrioritySelect`, examining the selector's ternary value from
bit 0 upward: all bits known-zero replaces the node with a zero literal of
its type; if the first non-known-zero bit is known-one, the node is replaced
by the case at that bit's index; if that first non-known-zero bit is
unknown, this rule makes no change. -/
theorem prioritySelect_known_prefix_rule {α : Type} (selector : TernaryVector)
    (cases : List α) :
    ((∀ v ∈ selector, v = TernaryValue.kKnownZero) →
        simplifyPrioritySelectKnownPrefix selector cases
          = some PrioritySelRewrite.toZeroLiteral) ∧
    (∀ i : Nat, i < selector.length →
        (∀ j, j < i →
          selector.getD j TernaryValue.kUnknown = TernaryValue.kKnownZero) →
        selector.getD i TernaryValue.kUnknown ≠ TernaryValue.kKnownZero →
        ((∀ c, selector.getD i TernaryValue.kUnknown = TernaryValue.kKnownOne →
            cases.get? i = some c →
            simplifyPrioritySelectKnownPrefix selector cases
              = some (PrioritySelRewrite.toCase c)) ∧
         (selector.getD i TernaryValue.kUnknown = TernaryValue.kUnknown →
            simplifyPrioritySelectKnownPrefix selector cases
              = some PrioritySelRewrite.noChange))) := by
  constructor
  · intro hall
    unfold simplifyPrioritySelectKnownPrefix
    rw [findFirstNonzeroBit_none selector hall]
  · intro i hi hzero hnz
    have hfind := findFirstNonzeroBit_first selector i hi hzero hnz
    constructor
    · intro c hone hc
      unfold simplifyPrioritySelectKnownPrefix
      rw [hfind]
      rw [List.getD_eq_getElem?_getD] at hone
      rw [List.get?_eq_getElem?] at hc
      simp [hone, hc]
    · intro hunk
      unfold simplifyPrioritySelectKnownPrefix
      rw [hfind]
      rw [List.getD_eq_getElem?_getD] at hunk
      simp [hunk]

/-- Witness for C6 at concrete selectors: `[0, 1]` rewrites to case 1,
`[0, 0]` to the zero literal, and `[X, 1]` is left unchanged. -/
theorem prioritySelect_known_prefix_rule_witness :
    simplifyPrioritySelectKnownPrefix
        [TernaryValue.kKnownZero, TernaryValue.kKnownOne] [7, 8]
      = some (PrioritySelRewrite.toCase 8) ∧
    simplifyPrioritySelectKnownPrefix
        [TernaryValue.kKnownZero, TernaryValue.kKnownZero] ([7, 8] : List Nat)
      = some PrioritySelRewrite.toZeroLiteral ∧
    simplifyPrioritySelectKnownPrefix
        [TernaryValue.kUnknown, TernaryValue.kKnownOne] ([7, 8] : List Nat)
      = some PrioritySelRewrite.noChange := by
  refine ⟨?_, ?_, ?_⟩
  · exact ((prioritySelect_known_prefix_rule
        [TernaryValue.kKnownZero, TernaryValue.kKnownOne] [7, 8]).2 1 (by decide)
        (fun j hj => by interval_cases j; decide) (by decide)).1 8 (by decide)
        (by decide)
  · exact (prioritySelect_known_prefix_rule
        [TernaryValue.kKnownZero, TernaryValue.kKnownZero] ([7, 8] : List Nat)).1
        (by decide)
  · exact ((prioritySelect_known_prefix_rule
        [TernaryValue.kUnknown, TernaryValue.kKnownOne] ([7, 8] : List Nat)).2 0
        (by decide) (fun j hj => by omega) (by decide)).2 (by decide)

/-! ## Claim C1 -/

/-- C1 counterexample: for `sel0 = Select(p0, cases=[sel1, x])` with
`sel1 = Select(p1, cases=[y, x])` and `x ≠ y` (here `x = var 0`, `y = var 1`,
`p0 = var 2`, `p1 = var 3`, all 1-bit), the pass does NOT produce the
claimed `Select(OR(p0, !p1), [y, x])` — it produces `Select(OR(p0, p1),
[y, x])` — and the claimed node is not value-preserving: at
`p0 = 0, p1 = 0, x = 0, y = 1` the original select evaluates to `y = 1`
while the claimed rewrite evaluates to `x = 0`. -/
theorem collapseTwoWaySelect_claimed_form_false :
    (collapseTwoWaySelect
        (Expr.sel (Expr.var 2 1)
          (Expr.sel (Expr.var 3 1) (Expr.var 1 1) (Expr.var 0 1)) (Expr.var 0 1))
      = some (Expr.sel (Expr.naryOr (Expr.var 2 1) (Expr.var 3 1))
          (Expr.var 1 1) (Expr.var 0 1)) ∧
     collapseTwoWaySelect
        (Expr.sel (Expr.var 2 1)
          (Expr.sel (Expr.var 3 1) (Expr.var 1 1) (Expr.var 0 1)) (Expr.var 0 1))
      ≠ some (Expr.sel (Expr.naryOr (Expr.var 2 1) (Expr.unNot (Expr.var 3 1)))
          (Expr.var 1 1) (Expr.var 0 1))) ∧
    Expr.eval (fun i => if i = 1 then 1 else 0)
        (Expr.sel (Expr.naryOr (Expr.var 2 1) (Expr.unNot (Expr.var 3 1)))
          (Expr.var 1 1) (Expr.var 0 1))
      ≠ Expr.eval (fun i => if i = 1 then 1 else 0)
        (Expr.sel (Expr.var 2 1)
          (Expr.sel (Expr.var 3 1) (Expr.var 1 1) (Expr.var 0 1))
          (Expr.var 0 1)) := by
  refine ⟨⟨?_, ?_⟩, ?_⟩ <;> decide

/-- C1 (amended): for `sel0 = Select(p0, cases=[sel1, x])` whose case 0 is
`sel1 = Select(p1, cases=[y, x])` sharing the common case `x` (with `x` and
`y` distinct nodes and `p0`, `p1` single-bit), the pass collapses the pair
into `Select(OR(p0, p1), cases=[y, x])`, and for every assignment of the
variables the rewritten node evaluates to the same value as the original
`sel0`. -/
theorem collapseTwoWaySelect_common_rhs (p0 p1 x y : Expr)
    (hp0 : p0.width = 1) (hp1 : p1.width = 1) (hxy : x ≠ y)
    (hb0 : ∀ env : Nat → Nat, Expr.eval env p0 ≤ 1)
    (hb1 : ∀ env : Nat → Nat, Expr.eval env p1 ≤ 1) :
    collapseTwoWaySelect (Expr.sel p0 (Expr.sel p1 y x) x)
      = some (Expr.sel (Expr.naryOr p0 p1) y x) ∧
    ∀ env : Nat → Nat,
      Expr.eval env (Expr.sel (Expr.naryOr p0 p1) y x)
        = Expr.eval env (Expr.sel p0 (Expr.sel p1 y x) x) := by
  constructor
  · simp [collapseTwoWaySelect, is2waySelect, Expr.width, hp0, hp1, hxy]
  · intro env
    rcases Nat.le_one_iff_eq_zero_or_eq_one.mp (hb0 env) with h0 | h0 <;>
      rcases Nat.le_one_iff_eq_zero_or_eq_one.mp (hb1 env) with h1 | h1 <;>
        simp [Expr.eval, h0, h1]

/-- Witness for C1's amended claim at 1-bit predicates and 4-bit distinct
cases, evaluated under a concrete environment. -/
theorem collapseTwoWaySelect_common_rhs_witness :
    collapseTwoWaySelect
        (Expr.sel (Expr.var 2 1)
          (Expr.sel (Expr.var 3 1) (Expr.var 1 4) (Expr.var 0 4)) (Expr.var 0 4))
      = some (Expr.sel (Expr.naryOr (Expr.var 2 1) (Expr.var 3 1))
          (Expr.var 1 4) (Expr.var 0 4)) ∧
    Expr.eval (fun i => i + 3)
        (Expr.sel (Expr.naryOr (Expr.var 2 1) (Expr.var 3 1))
          (Expr.var 1 4) (Expr.var 0 4))
      = Expr.eval (fun i => i + 3)
        (Expr.sel (Expr.var 2 1)
          (Expr.sel (Expr.var 3 1) (Expr.var 1 4) (Expr.var 0 4))
          (Expr.var 0 4)) := by
  have hb : ∀ (k : Nat) (env : Nat → Nat), Expr.eval env (Expr.var k 1) ≤ 1 := by
    intro k env
    simp only [Expr.eval, pow_one]
    omega
  have h := collapseTwoWaySelect_common_rhs (Expr.var 2 1) (Expr.var 3 1)
    (Expr.var 0 4) (Expr.var 1 4) rfl rfl (by decide) (hb 2) (hb 3)
  exact ⟨h.1, h.2 (fun i => i + 3)⟩

/-! ## Helper lemmas for `MemoryModel` -/

theorem MemoryModel.Write_ok_elim (m m1 : MemoryModel) (a : Nat) (v : SimValue)
    (h : m.Write a v = Except.ok m1) :
    a < m.cells.length ∧ m.writeThisTick = none ∧
      v.width = (m.cells.headD ⟨0, 0⟩).width ∧
      m1 = { m with writeThisTick := some (a, v) } := by
  unfold MemoryModel.Write at h
  by_cases c1 : a ≥ m.cells.length
  · rw [if_pos c1] at h
    cases h
  · rw [if_neg c1] at h
    by_cases c2 : m.writeThisTick.isSome = true
    · rw [if_pos c2] at h
      cases h
    · rw [if_neg c2] at h
      by_cases c3 : v.width ≠ (m.cells.headD ⟨0, 0⟩).width
      · rw [if_pos c3] at h
        cases h
      · rw [if_neg c3] at h
        cases h
        exact ⟨by omega, Option.not_isSome_iff_eq_none.mp c2, not_ne_iff.mp c3,
          rfl⟩

theorem headD_set_width (cells : List SimValue) (a : Nat) (v : SimValue)
    (hv : v.width = (cells.headD ⟨0, 0⟩).width) :
    ((cells.set a v).headD ⟨0, 0⟩).width = (cells.headD ⟨0, 0⟩).width := by
  cases cells with
  | nil => simp
  | cons c cs =>
    cases a with
    | zero => simpa using hv
    | succ n => simp

/-! ## Claim C9 -/

/-- C9: a second `Write` in the same tick fails with a precondition error
while the cells and the already-staged write are untouched; `Tick` commits
the staged write into the cells and clears the staging register; after
`Tick`, a new `Write` at a valid address (of the memory's value width) is
accepted — so at most one write is committed per tick. -/
theorem MemoryModel_one_write_per_tick (m m1 : MemoryModel) (a1 a2 : Nat)
    (v1 v2 : SimValue) (h1 : m.Write a1 v1 = Except.ok m1)
    (ha2 : a2 < m.cells.length)
    (hw2 : v2.width = (m.cells.headD ⟨0, 0⟩).width) :
    (m1.Write a2 v2 = Except.error MemError.failedPrecondition ∧
      m1.cells = m.cells ∧ m1.writeThisTick = some (a1, v1)) ∧
    (m1.Tick.cells = m.cells.set a1 v1 ∧ m1.Tick.writeThisTick = none) ∧
    (∃ m2, m1.Tick.Write a2 v2 = Except.ok m2 ∧
      m2.writeThisTick = some (a2, v2) ∧ m2.cells = m.cells.set a1 v1) := by
  obtain ⟨hlt1, hnone, hwidth1, hm1⟩ := MemoryModel.Write_ok_elim m m1 a1 v1 h1
  subst hm1
  refine ⟨⟨?_, rfl, rfl⟩, ⟨rfl, rfl⟩, ?_⟩
  · unfold MemoryModel.Write
    rw [if_neg (by simpa using Nat.not_le.mpr ha2)]
    rw [if_pos (by simp)]
  · refine ⟨⟨m.cells.set a1 v1, some (a2, v2), none, m.readThisTick⟩,
      ?_, rfl, rfl⟩
    unfold MemoryModel.Write
    rw [if_neg (by simp [MemoryModel.Tick, List.length_set]; omega)]
    rw [if_neg (by simp [MemoryModel.Tick])]
    rw [if_neg (by
      simp only [MemoryModel.Tick]
      rw [headD_set_width m.cells a1 v1 hwidth1]
      exact not_ne_iff.mpr hw2)]
    rfl

/-- Witness for C9: a 2-cell memory of 4-bit values; staging a write to
address 1, a second write to address 0 fails with a precondition error,
`Tick` commits cell 1, and a fresh write is then accepted. -/
theorem MemoryModel_one_write_per_tick_witness :
    (⟨[⟨4, 0⟩, ⟨4, 7⟩], some (1, ⟨4, 5⟩), none, none⟩ : MemoryModel).Write 0 ⟨4, 9⟩
      = Except.error MemError.failedPrecondition ∧
    (⟨[⟨4, 0⟩, ⟨4, 7⟩], some (1, ⟨4, 5⟩), none, none⟩ : MemoryModel).Tick.cells
      = [⟨4, 0⟩, ⟨4, 5⟩] ∧
    ∃ m2, (⟨[⟨4, 0⟩, ⟨4, 7⟩], some (1, ⟨4, 5⟩), none, none⟩ :
        MemoryModel).Tick.Write 0 ⟨4, 9⟩ = Except.ok m2 := by
  have h := MemoryModel_one_write_per_tick
    ⟨[⟨4, 0⟩, ⟨4, 7⟩], none, none, none⟩
    ⟨[⟨4, 0⟩, ⟨4, 7⟩], some (1, ⟨4, 5⟩), none, none⟩
    1 0 ⟨4, 5⟩ ⟨4, 9⟩ rfl (by decide) (by decide)
  refine ⟨h.1.1, ?_, ?_⟩
  · rw [h.2.1.1]
    rfl
  · obtain ⟨m2, hm2, _, _⟩ := h.2.2
    exact ⟨m2, hm2⟩

/-! ## Claim C2 -/

/-- C2 (code evidence): one ready/valid input channel with a non-empty
queue, Bernoulli draws true then false, and the block never asserting
ready. Cycle 0 drives valid with no transaction (the pair shows the queue
is not popped); the claim then requires valid to stay asserted in cycle 1,
but the code — whose `asserted_valids` set is recreated empty every cycle —
drives valid from the Bernoulli draw alone and lets it drop to false. -/
theorem runBlock_sticky_valid_dropped :
    inputChannelValids (fun c => c == 0) (fun _ => false) 2 [⟨1, 1⟩]
      = [true, false] ∧
    inputChannelCycle true false [⟨1, 1⟩] = (true, [⟨1, 1⟩]) := by
  constructor <;> decide

/-! ## Helper lemma for `RunBlock` timeout -/

theorem runBlockLoop_reaches_timeout (max : Nat) (p d : Nat → Bool) (c : Nat)
    (hgood : ∀ j, 1 ≤ j → j < c →
        d j = false ∧ j - lastOutputBefore p (j + 1) ≤ max)
    (hdr : d c = false) (htm : max < c - lastOutputBefore p (c + 1)) :
    ∀ fuel k, 1 ≤ k → k ≤ c → c - k < fuel →
      runBlockLoop max p d fuel k (lastOutputBefore p k)
        = BlockRunResult.timeoutError c := by
  intro fuel
  induction fuel with
  | zero =>
    intro k h1 h2 h3
    omega
  | succ n ih =>
    intro k hk1 hkc hfuel
    have hk0 : ¬ k = 0 := by omega
    rw [runBlockLoop, if_neg hk0]
    have hupd : (if p k then k else lastOutputBefore p k)
        = lastOutputBefore p (k + 1) := by
      rw [lastOutputBefore, if_neg hk0]
    by_cases hkc2 : k = c
    · subst hkc2
      rw [if_neg (by simp [hdr]), if_pos (by rw [hupd]; omega)]
    · have hg := hgood k hk1 (by omega)
      rw [if_neg (by simp [hg.1]), if_neg (by rw [hupd]; omega), hupd]
      exact ih (k + 1) (by omega) (by omega) (by omega)

/-! ## Claim C8 -/

/-- C8: the `RunBlock` cycle loop fails with the out-of-range error exactly
in the first post-reset cycle whose distance from the last output-producing
cycle (the reset cycle 0 if none) exceeds `max_cycles_no_output`, provided
the expected-output queues were not yet drained; in particular with
`max_cycles_no_output = 5` and a block that never produces output, the run
errors exactly at cycle 6. -/
theorem runBlock_max_cycles_no_output (max : Nat) (p d : Nat → Bool)
    (c fuel : Nat) (hc : 1 ≤ c) (hfuel : c < fuel)
    (hgood : ∀ j, 1 ≤ j → j < c →
        d j = false ∧ j - lastOutputBefore p (j + 1) ≤ max)
    (hdr : d c = false) (htm : max < c - lastOutputBefore p (c + 1)) :
    runBlock max p d fuel = BlockRunResult.timeoutError c ∧
    runBlock 5 (fun _ => false) (fun _ => false) 8
      = BlockRunResult.timeoutError 6 := by
  refine ⟨?_, by decide⟩
  unfold runBlock
  cases fuel with
  | zero => omega
  | succ n =>
    have hstep : runBlockLoop max p d (n + 1) 0 0
        = runBlockLoop max p d n 1 (lastOutputBefore p 1) := by rfl
    rw [hstep]
    exact runBlockLoop_reaches_timeout max p d c hgood hdr htm n 1 (by omega)
      hc (by omega)

/-- Witness for C8: with `max_cycles_no_output = 3` and no output ever
produced, the loop times out exactly at cycle 4. -/
theorem runBlock_max_cycles_no_output_witness :
    runBlock 3 (fun _ => false) (fun _ => false) 20
      = BlockRunResult.timeoutError 4 :=
  (runBlock_max_cycles_no_output 3 (fun _ => false) (fun _ => false) 4 20
    (by omega) (by omega)
    (fun j h1 h2 => by interval_cases j <;> exact ⟨rfl, by decide⟩)
    rfl (by decide)).1

/-! ## Helper lemma for `EvaluateProcs` -/

theorem evalProcsLoop_stops_at_convergence (tickFn : EvalState → EvalState)
    (assertsFn : EvalState → List Nat) (failOnAssert : Bool)
    (expected : List (List SimValue)) :
    ∀ (n : Nat) (s : EvalState) (fuel t : Nat), n < fuel →
      (∀ k, k ≤ n →
        (failOnAssert && !(assertsFn (tickFn^[k] s)).isEmpty) = false) →
      (∀ k, k < n → allOutputsProduced expected (tickFn^[k + 1] s) = false) →
      allOutputsProduced expected (tickFn^[n + 1] s) = true →
      verifyOutputs expected (tickFn^[n + 1] s).outs = true →
      evalProcsLoop tickFn assertsFn failOnAssert expected fuel t s
        = ProcRunResult.success (t + (n + 1))
            (unconsumedInputs (tickFn^[n + 1] s)) := by
  intro n
  induction n with
  | zero =>
    intro s fuel t hfuel hassert hpre hconv hver
    cases fuel with
    | zero => omega
    | succ m =>
      have ha := hassert 0 (by omega)
      rw [Function.iterate_zero_apply] at ha
      rw [Function.iterate_one] at hconv hver ⊢
      rw [evalProcsLoop, if_neg (by simp [ha]), if_pos hconv, if_pos hver]
  | succ n ih =>
    intro s fuel t hfuel hassert hpre hconv hver
    cases fuel with
    | zero => omega
    | succ m =>
      have ha := hassert 0 (by omega)
      rw [Function.iterate_zero_apply] at ha
      have hp0 := hpre 0 (by omega)
      rw [Function.iterate_one] at hp0
      rw [evalProcsLoop, if_neg (by simp [ha]), if_neg (by simp [hp0])]
      have hrec := ih (tickFn s) m (t + 1) (by omega)
        (fun k hk => by
          have hx := hassert (k + 1) (by omega)
          rwa [Function.iterate_succ_apply] at hx)
        (fun k hk => by
          have hx := hpre (k + 1) (by omega)
          rwa [Function.iterate_succ_apply] at hx)
        (by rwa [Function.iterate_succ_apply] at hconv)
        (by rwa [Function.iterate_succ_apply] at hver)
      rw [hrec]
      have harith : t + 1 + (n + 1) = t + (n + 1 + 1) := by omega
      rw [harith,
        show tickFn^[n + 1 + 1] s = tickFn^[n + 1] (tickFn s) from
          Function.iterate_succ_apply tickFn (n + 1) s]

/-! ## Claim C7 -/

/-- C7: `EvaluateProcs` with a negative tick count keeps ticking until the
first tick after which every channel with expected outputs has accumulated
at least as many values as expected, then stops ticking; the streaming
(non-single-value) input queues still holding values at that moment are
drained into the non-fatal warning (`unconsumedInputs`, emitted exactly when
non-empty), and the run succeeds provided the accumulated outputs match the
expected sequences. -/
theorem evalProcs_negative_ticks_converges (tickFn : EvalState → EvalState)
    (assertsFn : EvalState → List Nat) (failOnAssert : Bool)
    (expected : List (List SimValue)) (s0 : EvalState) (n fuel : Nat)
    (hfuel : n < fuel)
    (hassert : ∀ k, k ≤ n →
        (failOnAssert && !(assertsFn (tickFn^[k] s0)).isEmpty) = false)
    (hfirst : ∀ k, k < n →
        allOutputsProduced expected (tickFn^[k + 1] s0) = false)
    (hconv : allOutputsProduced expected (tickFn^[n + 1] s0) = true)
    (hmatch : verifyOutputs expected (tickFn^[n + 1] s0).outs = true) :
    evalProcsNegativeTicks tickFn assertsFn failOnAssert expected fuel s0
      = ProcRunResult.success (n + 1) (unconsumedInputs (tickFn^[n + 1] s0)) := by
  have h := evalProcsLoop_stops_at_convergence tickFn assertsFn failOnAssert
    expected n s0 fuel 0 hfuel hassert hfirst hconv hmatch
  unfold evalProcsNegativeTicks
  rw [h]
  norm_num

/-- Witness for C7: one output channel expecting two values, produced one
per tick, with a streaming input queue that is never consumed. The run
converges after tick 2, succeeds, and the warning lists the leftover input
value. -/
theorem evalProcs_negative_ticks_converges_witness :
    evalProcsNegativeTicks
      (fun s => ⟨[(s.outs.headD []) ++ [⟨1, 0⟩]], s.ins⟩)
      (fun _ => []) true [[⟨1, 0⟩, ⟨1, 0⟩]] 5
      ⟨[[]], [(false, [⟨1, 1⟩])]⟩
      = ProcRunResult.success 2 [[⟨1, 1⟩]] := by
  have h := evalProcs_negative_ticks_converges
    (fun s => ⟨[(s.outs.headD []) ++ [⟨1, 0⟩]], s.ins⟩)
    (fun _ => []) true [[⟨1, 0⟩, ⟨1, 0⟩]]
    ⟨[[]], [(false, [⟨1, 1⟩])]⟩ 1 5 (by omega)
    (fun k hk => by simp)
    (fun k hk => by interval_cases k; decide)
    (by decide) (by decide)
  exact h.trans (by decide)
